import Mathlib

/-!
Shallow embedding of the Windowed Threshold Signal Engine of this
repository (`runner.py` and `weekly_canadian_ticker.py`).

Conventions of the embedding:
* Python floats are modelled as exact rationals (`Rat`);
* provider values that can be `None` (or can fail) are `Option`s;
* per-ticker dictionaries and the Mongo store are association lists;
* UTC timestamps are `Int`s, local calendar days are `Nat`s.
-/

/- ===================== runner.py : metrics and scoring ===================== -/

/-- The `{"average": ..., "minimum": ...}` dictionary built by
`compute_window_metrics` in `runner.py`. -/
structure WindowMetrics where
  average : Rat
  minimum : Rat
deriving DecidableEq, Repr

def listSum (xs : List Rat) : Rat := xs.foldl (· + ·) 0

/-- `pd.Series(xs).mean()` for a non-empty `xs` (the engine only takes the
mean of non-empty selections; `Rat` division by zero yields `0`, not NaN). -/
def listMean (xs : List Rat) : Rat := listSum xs / (xs.length : Rat)

/-- `pd.Series(xs).min()` for a non-empty `xs`. -/
def listMin : List Rat → Rat
  | [] => 0
  | x :: xs => xs.foldl min x

/-- Python slice `xs[-n:]` (note that `xs[-0:]` is the whole list). -/
def lastSlice (n : Nat) (xs : List Rat) : List Rat :=
  if n = 0 then xs else xs.drop (xs.length - n)

/-- `compute_window_metrics(close_series, low_series, window_days)` from
`runner.py` lines 179-187. -/
def compute_window_metrics (close_series low_series : List Rat) (window_days : Nat) :
    Option WindowMetrics :=
  if close_series.length < window_days ∨ low_series.length < window_days then none
  else some ⟨listMean (lastSlice window_days close_series),
             listMin (lastSlice window_days low_series)⟩

/-- `a - 0.5*(a - n)`: the `th_30_50` / `th_90_50` thresholds of
`invest_bucket` in `runner.py`. -/
def th50 (m : WindowMetrics) : Rat := m.average - (1/2 : Rat) * (m.average - m.minimum)

/-- `a - 0.8*(a - n)`: the `th_30_80` / `th_90_80` thresholds of
`invest_bucket` in `runner.py`. -/
def th80 (m : WindowMetrics) : Rat := m.average - (4/5 : Rat) * (m.average - m.minimum)

/-- `invest_bucket(latest, m30, m90)` from `runner.py` lines 189-215:
the if/elif chain, in source order, with the source's amounts and labels. -/
def invest_bucket (latest : Rat) (m30 m90 : WindowMetrics) : Nat × String :=
  if latest < m90.minimum then (800, "Below 90d min")
  else if latest < m30.minimum then (600, "Below 30d min")
  else if latest < th80 m90 then (700, "Below 80% gap (90d)")
  else if latest < th80 m30 then (500, "Below 80% gap (30d)")
  else if latest < th50 m90 then (500, "Below 50% gap (90d)")
  else if latest < th50 m30 then (400, "Below 50% gap (30d)")
  else if latest < m90.average then (200, "Below 90d avg")
  else if latest < m30.average then (100, "Below 30d avg")
  else (0, "No signal")

/-- `invest_bucket` with its eight price bounds abstracted: the same
if/elif chain, used to reason about the control flow without unfolding
the bound arithmetic (`invest_bucket` unfolds to it definitionally). -/
def bucketChain (l b1 b2 b3 b4 b5 b6 b7 b8 : Rat) : Nat × String :=
  if l < b1 then (800, "Below 90d min")
  else if l < b2 then (600, "Below 30d min")
  else if l < b3 then (700, "Below 80% gap (90d)")
  else if l < b4 then (500, "Below 80% gap (30d)")
  else if l < b5 then (500, "Below 50% gap (90d)")
  else if l < b6 then (400, "Below 50% gap (30d)")
  else if l < b7 then (200, "Below 90d avg")
  else if l < b8 then (100, "Below 30d avg")
  else (0, "No signal")

/-- The tiers of `invest_bucket`, in evaluation order: price bound,
amount, label (the final "No signal" tier is the fallback). -/
def tierTable (m30 m90 : WindowMetrics) : List (Rat × Nat × String) :=
  [(m90.minimum, 800, "Below 90d min"),
   (m30.minimum, 600, "Below 30d min"),
   (th80 m90, 700, "Below 80% gap (90d)"),
   (th80 m30, 500, "Below 80% gap (30d)"),
   (th50 m90, 500, "Below 50% gap (90d)"),
   (th50 m30, 400, "Below 50% gap (30d)"),
   (m90.average, 200, "Below 90d avg"),
   (m30.average, 100, "Below 30d avg")]

/-- First tier of `tierTable` whose strict-less-than bound the price
breaches; falls through to the "No signal" tier. -/
def firstTier (latest : Rat) (m30 m90 : WindowMetrics) : Nat × String :=
  match (tierTable m30 m90).find? (fun tr => decide (latest < tr.1)) with
  | some tr => (tr.2.1, tr.2.2)
  | none => (0, "No signal")

/-- `steps` from `amount_to_color` in `runner.py` line 219. -/
def colorSteps : List Nat := [0, 100, 200, 400, 500, 600, 700, 800]

/-- `amount_to_color(amount)` from `runner.py` lines 217-223, returning the
`(r, g)` components of the `rgb(r,g,0)` string.  `int()` on the
non-negative products is `Rat.floor`. -/
def amount_to_color (amount : Nat) : Int × Int :=
  let norm : Rat :=
    if amount ∈ colorSteps then
      ((colorSteps.indexOf amount : Nat) : Rat) / ((colorSteps.length : Rat) - 1)
    else 0
  (((1 - norm) * 255).floor, (norm * 255).floor)

/-- `amount_to_color` with the `amount in steps` membership test removed:
the version whose index lookup is assumed to succeed. -/
def amount_to_color_indexed (amount : Nat) : Int × Int :=
  let norm : Rat := ((colorSteps.indexOf amount : Nat) : Rat) / ((colorSteps.length : Rat) - 1)
  (((1 - norm) * 255).floor, (norm * 255).floor)

/- ===================== runner.py : daily per-ticker run ===================== -/

/-- `live_snapshot_latest_price(ticker)` from `runner.py` lines 171-176:
`float(fast_info.get("last_price") or 0.0)`, and `0.0` on exception.  The
provider's answer (absent / `None` / failure collapse to `none`). -/
def live_snapshot_latest_price (fastInfo : Option Rat) : Rat := fastInfo.getD 0

/-- One row of the daily results table built in `run_once`. -/
structure DailyRow where
  ticker : String
  latest : Rat
  amount : Nat
  label : String
deriving DecidableEq, Repr

/-- Overwrite the last element (`close[-1] = v`) or append (`close.append(v)`)
depending on whether the last history row is already today. -/
def merge_today (xs : List Rat) (v : Rat) (lastIsToday : Bool) : List Rat :=
  if lastIsToday then xs.dropLast ++ [v] else xs ++ [v]

/-- The per-ticker body of `run_once` in `runner.py` lines 300-380:
latest-price selection with its fallbacks, the today-merge, the window
metrics, and the invest signal.  `none` means the ticker was skipped
(`continue`).  `intradayClose`/`intradayLow` are today's intraday bars
after `dropna()`; `fastInfo` is the `fast_info` last price. -/
def run_once_ticker (t : String) (histClose histLow : List Rat)
    (intradayClose intradayLow : List Rat) (fastInfo : Option Rat)
    (histLastIsToday : Bool) : Option DailyRow :=
  if histClose = [] then none
  else
    let latest : Rat :=
      match intradayClose.getLast? with
      | some c => c
      | none => live_snapshot_latest_price fastInfo
    let closeTodayMean : Option Rat :=
      if intradayClose = [] then none else some (listMean intradayClose)
    let lowTodayMin : Option Rat :=
      if intradayLow = [] then none else some (listMin intradayLow)
    let close : List Rat :=
      match closeTodayMean, lowTodayMin with
      | some cm, some _ => merge_today histClose cm histLastIsToday
      | _, _ => histClose
    let low : List Rat :=
      match closeTodayMean, lowTodayMin with
      | some _, some lm => merge_today histLow lm histLastIsToday
      | _, _ => histLow
    match compute_window_metrics close low 30, compute_window_metrics close low 90 with
    | some m30, some m90 =>
        let r := invest_bucket latest m30 m90
        some ⟨t, latest, r.1, r.2⟩
    | _, _ => none

/- ============ weekly_canadian_ticker.py : weekly minimum statistic ============ -/

/-- One 5-minute bar stored in `PriceFor5MinuteInterval` (the fields the
aggregation reads): UTC timestamp, `Close`, `Low`. -/
structure Bar where
  ts : Int
  close : Rat
  low : Rat
deriving DecidableEq, Repr

/-- The per-(window, ticker) core of `fetch_minimum_close_byweek_for_ticker`
(`weekly_canadian_ticker.py` lines 301-324): the facet
`[{"$match": {"ts": {"$gte": start}}}, {"$group": {"minimumClose": {"$min": "$Close"}}}]`
— the minimum of `Close` over the bars at or after the window start;
`none` when no bar qualifies (the ticker is then absent from the map). -/
def fetch_minimum_close_in_window (bars : List Bar) (startTs : Int) : Option Rat :=
  match (bars.filter (fun b => decide (startTs ≤ b.ts))).map Bar.close with
  | [] => none
  | c :: cs => some (cs.foldl min c)

/- ============ weekly_canadian_ticker.py : labels and ordering ============ -/

abbrev Ticker := String

/-- The week facet names of `weekly_canadian_ticker.py`:
`"sinceThisWeek"` and `"sincePast{w}Weeks"`. -/
inductive WeekLabel where
  | sinceThisWeek
  | sincePastWeeks (n : Nat)
deriving DecidableEq, Repr

/-- `WEEK_SPANS` (`weekly_canadian_ticker.py` line 62). -/
def WEEK_SPANS : List Nat := [1, 2, 3, 4, 5, 6, 7, 8, 9, 10, 11, 12, 13, 14]

/-- `WEEK_FIELDS` (`weekly_canadian_ticker.py` line 65). -/
def WEEK_FIELDS : List WeekLabel :=
  WeekLabel.sinceThisWeek :: WEEK_SPANS.map WeekLabel.sincePastWeeks

/-- `week_sort_key(name)` from `weekly_canadian_ticker.py` lines 598-608
(on the structured labels there is nothing to parse). -/
def week_sort_key : WeekLabel → Nat
  | WeekLabel.sinceThisWeek => 0
  | WeekLabel.sincePastWeeks n => n

/-- Insert into a list already sorted descending by `week_sort_key`. -/
def insertDesc (x : WeekLabel) : List WeekLabel → List WeekLabel
  | [] => [x]
  | y :: ys =>
    if week_sort_key x ≤ week_sort_key y then y :: insertDesc x ys
    else x :: y :: ys

/-- `sorted(keys, key=week_sort_key, reverse=True)`. -/
def sortDesc : List WeekLabel → List WeekLabel
  | [] => []
  | x :: xs => insertDesc x (sortDesc xs)

/-- `ordered_week_keys` in `run_base_analysis`: the facet keys sorted
deepest lookback first. -/
def orderedWeekKeys : List WeekLabel := sortDesc WEEK_FIELDS

/- ============ weekly_canadian_ticker.py : window assignment ============ -/

/-- One `{"ticker": ..., "currentPrice": ..., "minimumPrice": ...}` entry
appended to `week_to_tickers[wk]` in `run_base_analysis`. -/
structure WeekEntry where
  ticker : Ticker
  currentPrice : Rat
  minimumPrice : Rat
deriving DecidableEq, Repr

/-- The inner loop of `run_base_analysis` lines 697-710: scan the ordered
week keys, `continue` on a missing minimum, and on the first window with
`current < minimum` return it (`break`). -/
def assignTicker (ordered : List WeekLabel) (stats : WeekLabel → Option Rat)
    (current : Rat) : Option (WeekLabel × Rat) :=
  match ordered with
  | [] => none
  | wk :: rest =>
    match stats wk with
    | none => assignTicker rest stats current
    | some m => if current < m then some (wk, m) else assignTicker rest stats current

/-- `week_to_tickers[wk].append(entry)` on an association list initialised
with every ordered key. -/
def appendToWeek (wtt : List (WeekLabel × List WeekEntry)) (wk : WeekLabel)
    (e : WeekEntry) : List (WeekLabel × List WeekEntry) :=
  wtt.map fun p => if p.1 = wk then (p.1, p.2 ++ [e]) else p

/-- The per-ticker body of the assignment loop (`run_base_analysis` lines
690-710): a `none` current price skips the ticker (`continue`); otherwise
the ticker is appended to its first qualifying window, if any. -/
def processTicker (wtt : List (WeekLabel × List WeekEntry))
    (stats : WeekLabel → Ticker → Option Rat) (t : Ticker)
    (price : Option Rat) : List (WeekLabel × List WeekEntry) :=
  match price with
  | none => wtt
  | some current =>
    match assignTicker orderedWeekKeys (fun wk => stats wk t) current with
    | none => wtt
    | some (wk, m) => appendToWeek wtt wk ⟨t, current, m⟩

/-- The raw `week_to_tickers` computed by `run_base_analysis` lines
685-711: all ordered keys initialised empty, then every ticker processed
in order. -/
def run_assignment (tickers : List Ticker) (price : Ticker → Option Rat)
    (stats : WeekLabel → Ticker → Option Rat) : List (WeekLabel × List WeekEntry) :=
  tickers.foldl (fun wtt t => processTicker wtt stats t (price t))
    (orderedWeekKeys.map fun wk => (wk, ([] : List WeekEntry)))

/-- The complete decision `run_base_analysis` makes for one ticker:
which window it lands in (if any) together with the appended entry. -/
def assignFull (price : Ticker → Option Rat) (stats : WeekLabel → Ticker → Option Rat)
    (t : Ticker) : Option (WeekLabel × WeekEntry) :=
  match price t with
  | none => none
  | some current =>
    (assignTicker orderedWeekKeys (fun wk => stats wk t) current).map
      (fun p => (p.1, ⟨t, current, p.2⟩))

/- ============ weekly_canadian_ticker.py : dedup and persistence ============ -/

/-- One `ExecutionComparedToWeekCanada` document: the local calendar day of
its `createDatetime`, the saved week facets, and the `isNotified` tag
(absent ↔ `false`). -/
structure ExecRecord where
  day : Nat
  weeks : List (WeekLabel × List WeekEntry)
  isNotified : Bool
deriving DecidableEq, Repr

/-- `doc.get(wk, [])` on the saved week facets. -/
def lookupWeek (weeks : List (WeekLabel × List WeekEntry)) (wk : WeekLabel) :
    List WeekEntry :=
  match weeks.find? (fun p => decide (p.1 = wk)) with
  | some p => p.2
  | none => []

/-- `load_previously_reported_pairs()` from `weekly_canadian_ticker.py`
lines 374-416: all `(ticker, weekFlag)` pairs of today's notified
execution records (set membership is list membership here). -/
def load_previously_reported_pairs (store : List ExecRecord) (today : Nat) :
    List (Ticker × WeekLabel) :=
  (store.filter (fun r => decide (r.day = today) && r.isNotified)).flatMap
    (fun r => WEEK_FIELDS.flatMap
      (fun wk => (lookupWeek r.weeks wk).map (fun e => (e.ticker, wk))))

/-- The inner loop of `filter_already_reported_week_signals`: keep the
entries whose `(ticker, weekFlag)` pair is not previously reported (every
entry of the typed model carries a string ticker, so the `isinstance`
guard of the source is always true). -/
def filterWeekEntries (prev : List (Ticker × WeekLabel)) (wk : WeekLabel) :
    List WeekEntry → List WeekEntry
  | [] => []
  | e :: rest =>
    if (e.ticker, wk) ∈ prev then filterWeekEntries prev wk rest
    else e :: filterWeekEntries prev wk rest

/-- `filter_already_reported_week_signals(week_to_tickers)` from
`weekly_canadian_ticker.py` lines 626-660, with the previously reported
pairs passed explicitly. -/
def filter_already_reported_week_signals (prev : List (Ticker × WeekLabel))
    (wtt : List (WeekLabel × List WeekEntry)) : List (WeekLabel × List WeekEntry) :=
  wtt.map fun p => (p.1, filterWeekEntries prev p.1 p.2)

/-- One row of `aggregate_week_matches`. -/
structure Row where
  ticker : Ticker
  weekFlag : WeekLabel
  currentPrice : Rat
  compareWith : Rat
deriving DecidableEq, Repr

/-- `aggregate_week_matches(week_to_tickers)` from
`weekly_canadian_ticker.py` lines 421-445. -/
def aggregate_week_matches (wtt : List (WeekLabel × List WeekEntry)) : List Row :=
  wtt.flatMap fun p => p.2.map fun e => ⟨e.ticker, p.1, e.currentPrice, e.minimumPrice⟩

/-- What one `run_base_analysis` call does to the store: the execution
records it inserts, whether the run was notified (email dispatched
successfully for at least one row), and the candidate rows that survived
the dedup filter. -/
structure RunResult where
  saved : List ExecRecord
  notified : Bool
  rows : List Row
deriving DecidableEq, Repr

/-- `run_base_analysis()` from `weekly_canadian_ticker.py` lines 662-750,
with the external collaborators made explicit: the store, the local day,
the ticker list, the current-price provider, the per-window minimum-close
statistics, and the outcome of `send_email`.  Mirrors the source exactly:

* zero candidate rows → the raw `week_to_tickers` is saved untagged and
  no email is attempted;
* rows present and `send_email` returned `True` → the raw
  `week_to_tickers` is saved tagged `isNotified`;
* rows present and `send_email` returned `False` → nothing is saved. -/
def run_base_analysis (store : List ExecRecord) (today : Nat)
    (tickers : List Ticker) (price : Ticker → Option Rat)
    (stats : WeekLabel → Ticker → Option Rat) (sendSucceeds : Bool) : RunResult :=
  let wtt := run_assignment tickers price stats
  let prev := load_previously_reported_pairs store today
  let filtered := filter_already_reported_week_signals prev wtt
  let rows := aggregate_week_matches filtered
  if rows = [] then ⟨[⟨today, wtt, false⟩], false, rows⟩
  else if sendSucceeds then ⟨[⟨today, wtt, true⟩], true, rows⟩
  else ⟨[], false, rows⟩

/- ===================== helper lemmas ===================== -/

theorem foldl_min_le_init (l : List Rat) : ∀ a : Rat, l.foldl min a ≤ a := by
  induction l with
  | nil => intro a; exact le_refl a
  | cons x xs ih =>
    intro a
    calc (x :: xs).foldl min a = xs.foldl min (min a x) := rfl
    _ ≤ min a x := ih (min a x)
    _ ≤ a := min_le_left a x

theorem foldl_min_le_mem (l : List Rat) :
    ∀ (a x : Rat), x ∈ l → l.foldl min a ≤ x := by
  induction l with
  | nil => intro a x hx; exact absurd hx (List.not_mem_nil x)
  | cons y ys ih =>
    intro a x hx
    rcases List.mem_cons.mp hx with h | h
    · subst h
      calc (x :: ys).foldl min a = ys.foldl min (min a x) := rfl
      _ ≤ min a x := foldl_min_le_init ys (min a x)
      _ ≤ x := min_le_right a x
    · exact ih (min a y) x h

theorem foldl_min_mem (l : List Rat) :
    ∀ a : Rat, l.foldl min a = a ∨ l.foldl min a ∈ l := by
  induction l with
  | nil => intro a; exact Or.inl rfl
  | cons x xs ih =>
    intro a
    have hd : (x :: xs).foldl min a = xs.foldl min (min a x) := rfl
    rw [hd]
    rcases ih (min a x) with h | h
    · rcases min_choice a x with hc | hc
      · exact Or.inl (h.trans hc)
      · exact Or.inr (List.mem_cons.mpr (Or.inl (h.trans hc)))
    · exact Or.inr (List.mem_cons.mpr (Or.inr h))

theorem listMin_mem (l : List Rat) (h : l ≠ []) : listMin l ∈ l := by
  match l, h with
  | x :: xs, _ =>
    show xs.foldl min x ∈ x :: xs
    rcases foldl_min_mem xs x with h | h
    · rw [h]; exact List.mem_cons_self x xs
    · exact List.mem_cons.mpr (Or.inr h)

theorem listMin_le (l : List Rat) (x : Rat) (hx : x ∈ l) : listMin l ≤ x := by
  match l, hx with
  | y :: ys, hx =>
    show ys.foldl min y ≤ x
    rcases List.mem_cons.mp hx with h | h
    · subst h; exact foldl_min_le_init ys x
    · exact foldl_min_le_mem ys y x h

theorem invest_bucket_eq_firstTier (latest : Rat) (m30 m90 : WindowMetrics) :
    invest_bucket latest m30 m90 = firstTier latest m30 m90 := by
  simp only [invest_bucket, firstTier, tierTable]
  split_ifs <;> simp_all [List.find?_cons_of_pos, List.find?_cons_of_neg]

/- ===================== claim theorems ===================== -/

/-- C10: `invest_bucket` is total and its amount always lies in
`{0, 100, 200, 400, 500, 600, 700, 800}` (= `steps` of `amount_to_color`),
so `amount_to_color`'s index lookup succeeds and its not-in-steps fallback
branch is unreachable (it agrees with the fallback-free variant). -/
theorem invest_bucket_amounts_safe :
    ∀ (latest : Rat) (m30 m90 : WindowMetrics),
      (invest_bucket latest m30 m90).1 ∈ colorSteps ∧
      amount_to_color (invest_bucket latest m30 m90).1 =
        amount_to_color_indexed (invest_bucket latest m30 m90).1 := by
  intro l m30 m90
  unfold invest_bucket
  split_ifs <;>
    exact ⟨by decide, by simp [amount_to_color, amount_to_color_indexed, colorSteps]⟩

/-- C7: if a window's gap `average - minimum` is ≤ 0, `invest_bucket`
never returns that window's 80%-gap or 50%-gap tier; only the window's
minimum and average tiers remain reachable (the classifier still returns
a result — it is total by construction, so the degenerate window is not
an error). -/
theorem degenerate_window_narrowing :
    ∀ (latest : Rat) (m30 m90 : WindowMetrics),
      (m90.average - m90.minimum ≤ 0 →
        (invest_bucket latest m30 m90).2 ≠ "Below 80% gap (90d)" ∧
        (invest_bucket latest m30 m90).2 ≠ "Below 50% gap (90d)") ∧
      (m30.average - m30.minimum ≤ 0 →
        (invest_bucket latest m30 m90).2 ≠ "Below 80% gap (30d)" ∧
        (invest_bucket latest m30 m90).2 ≠ "Below 50% gap (30d)") := by
  intro l m30 m90
  unfold invest_bucket
  constructor <;>
  · intro hg
    split_ifs <;>
      refine ⟨?_, ?_⟩ <;>
      first
        | decide
        | (exfalso
           simp only [th80, th50, not_lt] at *
           linarith)

/-- Witness for C7: with a degenerate 90-day window (average = minimum =
100, gap 0) the classifier cannot return the 90d 80%-gap tier. -/
theorem degenerate_window_narrowing_witness :
    (invest_bucket 99 ⟨100, 90⟩ ⟨100, 100⟩).2 ≠ "Below 80% gap (90d)" :=
  ((degenerate_window_narrowing 99 ⟨100, 90⟩ ⟨100, 100⟩).1 (by norm_num)).1

/-- C3 (amended): `invest_bucket` evaluates its nine tiers in exactly the
fixed order of §4.2 with first-match-wins semantics (it agrees with the
first-match scan of `tierTable`), and the amounts attached along that
evaluation order are 800, 600, 700, 500, 500, 400, 200, 100 (then 0) —
which is not strictly descending and has a tie, so the first matching
tier is not always the highest-weight matching tier. -/
theorem tier_order_and_weights :
    (∀ (latest : Rat) (m30 m90 : WindowMetrics),
        invest_bucket latest m30 m90 = firstTier latest m30 m90) ∧
    (∀ m30 m90 : WindowMetrics,
        (tierTable m30 m90).map (fun tr => tr.2.1) =
          [800, 600, 700, 500, 500, 400, 200, 100]) :=
  ⟨invest_bucket_eq_firstTier, fun _ _ => rfl⟩

/-- Counterexample for C3: with `m30 = ⟨100, 80⟩`, `m90 = ⟨100, 50⟩` and
price 55, the classifier returns the second tier (amount 600) although
the third tier's condition `55 < th80 m90 = 60` also holds and that tier
carries the larger amount 700; moreover the first two tier bounds rise
from 50 to 80 instead of strictly descending. -/
theorem tier_first_match_not_highest_cex :
    invest_bucket 55 ⟨100, 80⟩ ⟨100, 50⟩ = (600, "Below 30d min") ∧
    (55 : Rat) < th80 ⟨100, 50⟩ ∧
    (tierTable ⟨100, 80⟩ ⟨100, 50⟩).get? 2 =
      some (th80 ⟨100, 50⟩, 700, "Below 80% gap (90d)") ∧
    (600 : Nat) < 700 ∧
    (tierTable ⟨100, 80⟩ ⟨100, 50⟩).get? 0 = some (50, 800, "Below 90d min") ∧
    (tierTable ⟨100, 80⟩ ⟨100, 50⟩).get? 1 = some (80, 600, "Below 30d min") ∧
    (50 : Rat) < 80 := by
  refine ⟨by norm_num [invest_bucket, th80, th50], by norm_num [th80], rfl,
          by norm_num, rfl, rfl, by norm_num⟩

theorem invest_bucket_eq_bucketChain (l : Rat) (m30 m90 : WindowMetrics) :
    invest_bucket l m30 m90 =
      bucketChain l m90.minimum m30.minimum (th80 m90) (th80 m30)
        (th50 m90) (th50 m30) m90.average m30.average := rfl

theorem bucketChain_label1 (l b1 b2 b3 b4 b5 b6 b7 b8 : Rat)
    (h : (bucketChain l b1 b2 b3 b4 b5 b6 b7 b8).2 = "Below 90d min") :
    l < b1 := by
  unfold bucketChain at h
  split_ifs at h with h1 h2 h3 h4 h5 h6 h7 h8 <;> simp_all

theorem bucketChain_label2 (l b1 b2 b3 b4 b5 b6 b7 b8 : Rat)
    (h : (bucketChain l b1 b2 b3 b4 b5 b6 b7 b8).2 = "Below 30d min") :
    ¬ l < b1 ∧ l < b2 := by
  unfold bucketChain at h
  split_ifs at h with h1 h2 h3 h4 h5 h6 h7 h8 <;> simp_all

theorem bucketChain_label3 (l b1 b2 b3 b4 b5 b6 b7 b8 : Rat)
    (h : (bucketChain l b1 b2 b3 b4 b5 b6 b7 b8).2 = "Below 80% gap (90d)") :
    ¬ l < b1 ∧ ¬ l < b2 ∧ l < b3 := by
  unfold bucketChain at h
  split_ifs at h with h1 h2 h3 h4 h5 h6 h7 h8 <;> simp_all

theorem bucketChain_label4 (l b1 b2 b3 b4 b5 b6 b7 b8 : Rat)
    (h : (bucketChain l b1 b2 b3 b4 b5 b6 b7 b8).2 = "Below 80% gap (30d)") :
    ¬ l < b1 ∧ ¬ l < b2 ∧ ¬ l < b3 ∧ l < b4 := by
  unfold bucketChain at h
  split_ifs at h with h1 h2 h3 h4 h5 h6 h7 h8 <;> simp_all

theorem bucketChain_label5 (l b1 b2 b3 b4 b5 b6 b7 b8 : Rat)
    (h : (bucketChain l b1 b2 b3 b4 b5 b6 b7 b8).2 = "Below 50% gap (90d)") :
    ¬ l < b1 ∧ ¬ l < b2 ∧ ¬ l < b3 ∧ ¬ l < b4 ∧ l < b5 := by
  unfold bucketChain at h
  split_ifs at h with h1 h2 h3 h4 h5 h6 h7 h8 <;> simp_all

theorem bucketChain_label6 (l b1 b2 b3 b4 b5 b6 b7 b8 : Rat)
    (h : (bucketChain l b1 b2 b3 b4 b5 b6 b7 b8).2 = "Below 50% gap (30d)") :
    ¬ l < b1 ∧ ¬ l < b2 ∧ ¬ l < b3 ∧ ¬ l < b4 ∧ ¬ l < b5 ∧ l < b6 := by
  unfold bucketChain at h
  split_ifs at h with h1 h2 h3 h4 h5 h6 h7 h8 <;> simp_all

theorem bucketChain_label7 (l b1 b2 b3 b4 b5 b6 b7 b8 : Rat)
    (h : (bucketChain l b1 b2 b3 b4 b5 b6 b7 b8).2 = "Below 90d avg") :
    l < b7 := by
  unfold bucketChain at h
  split_ifs at h with h1 h2 h3 h4 h5 h6 h7 h8 <;> simp_all

theorem bucketChain_label8 (l b1 b2 b3 b4 b5 b6 b7 b8 : Rat)
    (h : (bucketChain l b1 b2 b3 b4 b5 b6 b7 b8).2 = "Below 30d avg") :
    l < b8 := by
  unfold bucketChain at h
  split_ifs at h with h1 h2 h3 h4 h5 h6 h7 h8 <;> simp_all

/-- C8: every breach condition of `invest_bucket` is strict less-than, so
a price exactly equal to a tier's bound never yields that tier; and in
the spec's scenario (both windows average 100, minimum 80, gap 20) the
price 84 sits exactly on the 80%-gap bound `100 - 0.8*20 = 84`, does not
breach it, and the classifier returns the 50%-gap (90d) tier with amount
500 ∈ {400, 500}. -/
theorem strict_boundary_no_breach :
    (∀ (latest : Rat) (m30 m90 : WindowMetrics),
      (latest = m90.minimum → (invest_bucket latest m30 m90).2 ≠ "Below 90d min") ∧
      (latest = m30.minimum → (invest_bucket latest m30 m90).2 ≠ "Below 30d min") ∧
      (latest = th80 m90 → (invest_bucket latest m30 m90).2 ≠ "Below 80% gap (90d)") ∧
      (latest = th80 m30 → (invest_bucket latest m30 m90).2 ≠ "Below 80% gap (30d)") ∧
      (latest = th50 m90 → (invest_bucket latest m30 m90).2 ≠ "Below 50% gap (90d)") ∧
      (latest = th50 m30 → (invest_bucket latest m30 m90).2 ≠ "Below 50% gap (30d)") ∧
      (latest = m90.average → (invest_bucket latest m30 m90).2 ≠ "Below 90d avg") ∧
      (latest = m30.average → (invest_bucket latest m30 m90).2 ≠ "Below 30d avg")) ∧
    th80 ⟨100, 80⟩ = 84 ∧
    invest_bucket 84 ⟨100, 80⟩ ⟨100, 80⟩ = (500, "Below 50% gap (90d)") ∧
    (invest_bucket 84 ⟨100, 80⟩ ⟨100, 80⟩).1 ∈ [400, 500] := by
  constructor
  · intro l m30 m90
    refine ⟨?_, ?_, ?_, ?_, ?_, ?_, ?_, ?_⟩ <;> intro he hlab <;>
      rw [invest_bucket_eq_bucketChain] at hlab <;> subst he
    · exact absurd (bucketChain_label1 _ _ _ _ _ _ _ _ _ hlab) (lt_irrefl _)
    · exact absurd ((bucketChain_label2 _ _ _ _ _ _ _ _ _ hlab).2) (lt_irrefl _)
    · exact absurd ((bucketChain_label3 _ _ _ _ _ _ _ _ _ hlab).2.2) (lt_irrefl _)
    · exact absurd ((bucketChain_label4 _ _ _ _ _ _ _ _ _ hlab).2.2.2) (lt_irrefl _)
    · exact absurd ((bucketChain_label5 _ _ _ _ _ _ _ _ _ hlab).2.2.2.2) (lt_irrefl _)
    · exact absurd ((bucketChain_label6 _ _ _ _ _ _ _ _ _ hlab).2.2.2.2.2) (lt_irrefl _)
    · exact absurd (bucketChain_label7 _ _ _ _ _ _ _ _ _ hlab) (lt_irrefl _)
    · exact absurd (bucketChain_label8 _ _ _ _ _ _ _ _ _ hlab) (lt_irrefl _)
  · exact ⟨by norm_num [th80], by norm_num [invest_bucket, th80, th50],
           by norm_num [invest_bucket, th80, th50]⟩

/-- Witness for C8: a price exactly at the 30-day minimum (80) is not
reported as below the 30-day minimum. -/
theorem strict_boundary_no_breach_witness :
    (invest_bucket 80 ⟨100, 80⟩ ⟨200, 60⟩).2 ≠ "Below 30d min" :=
  (strict_boundary_no_breach.1 80 ⟨100, 80⟩ ⟨200, 60⟩).2.1 rfl

/-- C9 (amended): in the weekly engine a ticker whose current price is
unavailable (`fetch_current_price` returned `None`) is skipped and the
accumulated results are untouched; in the daily engine, however, a ticker
with no usable intraday data and no `fast_info` price is NOT skipped —
`live_snapshot_latest_price` substitutes the placeholder `0.0` and the
ticker is classified against `latest = 0`. -/
theorem missing_price_handling :
    (∀ (wtt : List (WeekLabel × List WeekEntry))
       (stats : WeekLabel → Ticker → Option Rat) (t : Ticker),
        processTicker wtt stats t none = wtt) ∧
    (∀ (t : String) (hc hl : List Rat) (b : Bool),
        hc ≠ [] →
        ∀ m30 m90 : WindowMetrics,
          compute_window_metrics hc hl 30 = some m30 →
          compute_window_metrics hc hl 90 = some m90 →
          run_once_ticker t hc hl [] [] none b =
            some ⟨t, 0, (invest_bucket 0 m30 m90).1, (invest_bucket 0 m30 m90).2⟩) := by
  constructor
  · intro wtt stats t
    rfl
  · intro t hc hl b hne m30 m90 h30 h90
    unfold run_once_ticker
    rw [if_neg hne]
    simp [live_snapshot_latest_price, h30, h90]

/-- Counterexample for C9: a daily-engine ticker with 90 days of history
but no intraday data and no `fast_info` price is not skipped — it is
classified against the placeholder price 0 (here landing in the top tier,
amount 800), contradicting the claim that such a ticker produces no
signal and is never classified against a zero price. -/
theorem daily_zero_price_classified_cex :
    run_once_ticker "X" (List.replicate 90 100) (List.replicate 90 90) [] [] none false =
      some ⟨"X", 0, 800, "Below 90d min"⟩ := by
  norm_num [run_once_ticker, live_snapshot_latest_price, compute_window_metrics,
    lastSlice, listMean, listSum, listMin, invest_bucket, List.replicate, List.getLast?]
  intro h
  exact absurd h (by simp)

/-- Witness for C9: the weekly skip at a concrete state, and the daily
placeholder classification at a concrete history, both obtained from the
theorem. -/
theorem missing_price_handling_witness :
    processTicker [(WeekLabel.sinceThisWeek, [])] (fun _ _ => some 5) "B" none =
        [(WeekLabel.sinceThisWeek, [])] ∧
    run_once_ticker "Y" (List.replicate 90 (100 : Rat)) (List.replicate 90 (80 : Rat))
        [] [] none true =
      some ⟨"Y", 0, (invest_bucket 0 ⟨100, 80⟩ ⟨100, 80⟩).1,
            (invest_bucket 0 ⟨100, 80⟩ ⟨100, 80⟩).2⟩ :=
  ⟨missing_price_handling.1 [(WeekLabel.sinceThisWeek, [])] (fun _ _ => some 5) "B",
   missing_price_handling.2 "Y" (List.replicate 90 (100 : Rat)) (List.replicate 90 (80 : Rat))
     true (by simp) ⟨100, 80⟩ ⟨100, 80⟩
     (by norm_num [compute_window_metrics, lastSlice, listMean, listSum, listMin, List.replicate])
     (by norm_num [compute_window_metrics, lastSlice, listMean, listSum, listMin, List.replicate])⟩

/-- C1 (amended): the daily `compute_window_metrics` is undefined (`None`)
whenever either series has fewer than `N` samples — never zero and never
a partial window — and on success, for `N > 0`, it selects exactly the
trailing `N` samples, returning the arithmetic mean of the selected close
values and the minimum of the selected low values.  The weekly variant
selects the samples at or after the window start and returns the minimum
of their CLOSE values (not of the lows, and no average): it is undefined
exactly when no sample falls inside the window. -/
theorem window_statistics_contract :
    (∀ (close low : List Rat) (N : Nat),
        close.length < N ∨ low.length < N →
        compute_window_metrics close low N = none) ∧
    (∀ (close low : List Rat) (N : Nat) (m : WindowMetrics),
        0 < N →
        compute_window_metrics close low N = some m →
        ∃ pre sel preL selL,
          close = pre ++ sel ∧ sel.length = N ∧
          low = preL ++ selL ∧ selL.length = N ∧
          m.average * (N : Rat) = listSum sel ∧
          m.minimum ∈ selL ∧ (∀ x ∈ selL, m.minimum ≤ x)) ∧
    (∀ (bars : List Bar) (s : Int),
        (fetch_minimum_close_in_window bars s = none ↔ ∀ b ∈ bars, b.ts < s) ∧
        (∀ mc : Rat, fetch_minimum_close_in_window bars s = some mc →
          (∃ b, b ∈ bars ∧ s ≤ b.ts ∧ b.close = mc) ∧
          (∀ b ∈ bars, s ≤ b.ts → mc ≤ b.close))) := by
  refine ⟨?_, ?_, ?_⟩
  · intro close low N h
    unfold compute_window_metrics
    rw [if_pos h]
  · intro close low N m hN hm
    unfold compute_window_metrics at hm
    split_ifs at hm with hcond
    push_neg at hcond
    obtain ⟨hcl, hll⟩ := hcond
    injection hm with hm
    have hNz : N ≠ 0 := Nat.pos_iff_ne_zero.mp hN
    have hselc : lastSlice N close = close.drop (close.length - N) := by
      unfold lastSlice; rw [if_neg hNz]
    have hsell : lastSlice N low = low.drop (low.length - N) := by
      unfold lastSlice; rw [if_neg hNz]
    have hlenc : (lastSlice N close).length = N := by
      rw [hselc, List.length_drop]; omega
    have hlenl : (lastSlice N low).length = N := by
      rw [hsell, List.length_drop]; omega
    refine ⟨close.take (close.length - N), lastSlice N close,
            low.take (low.length - N), lastSlice N low,
            ?_, hlenc, ?_, hlenl, ?_, ?_, ?_⟩
    · rw [hselc, List.take_append_drop]
    · rw [hsell, List.take_append_drop]
    · rw [← hm]
      show listMean (lastSlice N close) * (N : Rat) = listSum (lastSlice N close)
      unfold listMean
      rw [hlenc]
      exact div_mul_cancel₀ _ (by exact_mod_cast hNz)
    · rw [← hm]
      show listMin (lastSlice N low) ∈ lastSlice N low
      apply listMin_mem
      intro hnil
      rw [hnil] at hlenl
      exact hNz hlenl.symm
    · intro x hx
      rw [← hm]
      exact listMin_le _ x hx
  · intro bars s
    constructor
    · constructor
      · intro hnone b hb
        by_contra hts
        push_neg at hts
        have hbf : b ∈ bars.filter (fun b => decide (s ≤ b.ts)) :=
          List.mem_filter.mpr ⟨hb, by simpa using hts⟩
        have hbc : b.close ∈ (bars.filter (fun b => decide (s ≤ b.ts))).map Bar.close :=
          List.mem_map_of_mem Bar.close hbf
        unfold fetch_minimum_close_in_window at hnone
        rcases hl : (bars.filter (fun b => decide (s ≤ b.ts))).map Bar.close with _ | ⟨c, cs⟩
        · rw [hl] at hbc; exact absurd hbc (List.not_mem_nil _)
        · rw [hl] at hnone; exact absurd hnone (by simp)
      · intro hall
        unfold fetch_minimum_close_in_window
        have hemp : bars.filter (fun b => decide (s ≤ b.ts)) = [] := by
          apply List.filter_eq_nil_iff.mpr
          intro b hb
          simpa using not_le.mpr (hall b hb)
        rw [hemp]
        rfl
    · intro mc hmc
      unfold fetch_minimum_close_in_window at hmc
      rcases hl : (bars.filter (fun b => decide (s ≤ b.ts))).map Bar.close with _ | ⟨c, cs⟩
      · rw [hl] at hmc; exact absurd hmc (by simp)
      · rw [hl] at hmc
        injection hmc with hmc
        have hmin : mc = listMin (c :: cs) := hmc.symm
        constructor
        · have hmem : mc ∈ c :: cs := by
            rw [hmin]; exact listMin_mem _ (by simp)
          rw [← hl] at hmem
          obtain ⟨b, hbf, hbc⟩ := List.mem_map.mp hmem
          have hbb := List.mem_filter.mp hbf
          exact ⟨b, hbb.1, by simpa using hbb.2, hbc⟩
        · intro b hb hts
          have hbc : b.close ∈ c :: cs := by
            rw [← hl]
            exact List.mem_map_of_mem Bar.close
              (List.mem_filter.mpr ⟨hb, by simpa using hts⟩)
          rw [hmin]
          exact listMin_le _ _ hbc

/-- Counterexample for C1: in the weekly variant the returned minimum is
the minimum of the CLOSE values, not of the low values — a single bar
with close 10 and low 5 yields minimum 10, while the minimum of the lows
of the selected samples is 5. -/
theorem weekly_minimum_uses_close_cex :
    fetch_minimum_close_in_window [⟨0, 10, 5⟩] 0 = some 10 ∧
    listMin ((([⟨0, 10, 5⟩] : List Bar).filter (fun b => decide (0 ≤ b.ts))).map Bar.low) = 5 ∧
    (10 : Rat) ≠ 5 := by
  refine ⟨rfl, rfl, by norm_num⟩

/-- Witness for C1: the theorem applied at concrete inputs — a too-short
series is undefined, a 3-sample series with `N = 2` selects the trailing
two samples (mean 5/2 of closes, minimum 2 of lows), and a window
containing no bars is undefined. -/
theorem window_statistics_contract_witness :
    compute_window_metrics [1, 2] [5] 3 = none ∧
    (∃ pre sel preL selL, ([1, 2, 3] : List Rat) = pre ++ sel ∧ sel.length = 2 ∧
       ([0, 2, 4] : List Rat) = preL ++ selL ∧ selL.length = 2 ∧
       (5/2 : Rat) * ((2 : Nat) : Rat) = listSum sel ∧ (2 : Rat) ∈ selL ∧
       ∀ x ∈ selL, (2 : Rat) ≤ x) ∧
    fetch_minimum_close_in_window [⟨5, 7, 6⟩] 6 = none := by
  refine ⟨window_statistics_contract.1 [1, 2] [5] 3 (by norm_num), ?_, ?_⟩
  · have h := window_statistics_contract.2.1 [1, 2, 3] [0, 2, 4] 2 ⟨5/2, 2⟩ (by norm_num)
      (by norm_num [compute_window_metrics, lastSlice, listMean, listSum, listMin])
    simpa using h
  · exact (window_statistics_contract.2.2 [⟨5, 7, 6⟩] 6).1.mpr (by norm_num)

/- ============ helper lemmas : weekly resolver and dedup ============ -/

theorem orderedWeekKeys_eq :
    orderedWeekKeys =
      [WeekLabel.sincePastWeeks 14, WeekLabel.sincePastWeeks 13,
       WeekLabel.sincePastWeeks 12, WeekLabel.sincePastWeeks 11,
       WeekLabel.sincePastWeeks 10, WeekLabel.sincePastWeeks 9,
       WeekLabel.sincePastWeeks 8, WeekLabel.sincePastWeeks 7,
       WeekLabel.sincePastWeeks 6, WeekLabel.sincePastWeeks 5,
       WeekLabel.sincePastWeeks 4, WeekLabel.sincePastWeeks 3,
       WeekLabel.sincePastWeeks 2, WeekLabel.sincePastWeeks 1,
       WeekLabel.sinceThisWeek] := by rfl

theorem orderedWeekKeys_nodup : orderedWeekKeys.Nodup := by decide

theorem orderedWeekKeys_sub_weekFields : ∀ wk ∈ orderedWeekKeys, wk ∈ WEEK_FIELDS := by
  decide

theorem assignTicker_some_spec :
    ∀ (ordered : List WeekLabel) (stats : WeekLabel → Option Rat) (c : Rat)
      (wk : WeekLabel) (m : Rat),
      assignTicker ordered stats c = some (wk, m) →
      stats wk = some m ∧ c < m ∧
      ∃ l1 l2, ordered = l1 ++ wk :: l2 ∧
        ∀ wk' ∈ l1, ∀ m', stats wk' = some m' → m' ≤ c := by
  intro ordered
  induction ordered with
  | nil => intro stats c wk m h; exact absurd h (by simp [assignTicker])
  | cons w rest ih =>
    intro stats c wk m h
    cases hs : stats w with
    | none =>
      simp only [assignTicker, hs] at h
      obtain ⟨h1, h2, l1, l2, heq, hl1⟩ := ih stats c wk m h
      refine ⟨h1, h2, w :: l1, l2, by rw [heq, List.cons_append], ?_⟩
      intro wk' hwk' m' hm'
      rcases List.mem_cons.mp hwk' with hh | hh
      · subst hh; rw [hs] at hm'; exact absurd hm' (by simp)
      · exact hl1 wk' hh m' hm'
    | some mv =>
      simp only [assignTicker, hs] at h
      by_cases hc : c < mv
      · rw [if_pos hc] at h
        injection h with h'
        have hw : w = wk := congrArg Prod.fst h'
        have hm : mv = m := congrArg Prod.snd h'
        subst hw; subst hm
        exact ⟨hs, hc, [], rest, rfl, by simp⟩
      · rw [if_neg hc] at h
        obtain ⟨h1, h2, l1, l2, heq, hl1⟩ := ih stats c wk m h
        refine ⟨h1, h2, w :: l1, l2, by rw [heq, List.cons_append], ?_⟩
        intro wk' hwk' m' hm'
        rcases List.mem_cons.mp hwk' with hh | hh
        · subst hh; rw [hs] at hm'
          injection hm' with e
          exact e ▸ not_lt.mp hc
        · exact hl1 wk' hh m' hm'

theorem assignTicker_none_iff :
    ∀ (ordered : List WeekLabel) (stats : WeekLabel → Option Rat) (c : Rat),
      assignTicker ordered stats c = none ↔
        ∀ wk ∈ ordered, ∀ m, stats wk = some m → m ≤ c := by
  intro ordered
  induction ordered with
  | nil => intro stats c; simp [assignTicker]
  | cons w rest ih =>
    intro stats c
    cases hs : stats w with
    | none =>
      have hstep : assignTicker (w :: rest) stats c = assignTicker rest stats c := by
        simp only [assignTicker, hs]
      rw [hstep, ih stats c]
      constructor
      · intro hall wk hwk m hm
        rcases List.mem_cons.mp hwk with hh | hh
        · subst hh; rw [hs] at hm; exact absurd hm (by simp)
        · exact hall wk hh m hm
      · intro hall wk hwk m hm
        exact hall wk (List.mem_cons.mpr (Or.inr hwk)) m hm
    | some mv =>
      have hstep : assignTicker (w :: rest) stats c =
          if c < mv then some (w, mv) else assignTicker rest stats c := by
        simp only [assignTicker, hs]
      rw [hstep]
      by_cases hc : c < mv
      · rw [if_pos hc]
        constructor
        · intro h; exact absurd h (by simp)
        · intro hall
          have hle := hall w (List.mem_cons_self w rest) mv hs
          exact absurd hc (not_lt.mpr hle)
      · rw [if_neg hc, ih stats c]
        constructor
        · intro hall wk hwk m hm
          rcases List.mem_cons.mp hwk with hh | hh
          · subst hh; rw [hs] at hm
            injection hm with e
            exact e ▸ not_lt.mp hc
          · exact hall wk hh m hm
        · intro hall wk hwk m hm
          exact hall wk (List.mem_cons.mpr (Or.inr hwk)) m hm

theorem appendToWeek_keys (wtt : List (WeekLabel × List WeekEntry))
    (wk : WeekLabel) (e : WeekEntry) :
    (appendToWeek wtt wk e).map Prod.fst = wtt.map Prod.fst := by
  unfold appendToWeek
  induction wtt with
  | nil => rfl
  | cons p ps ih =>
    by_cases h : p.1 = wk <;> simp [h, ih]

theorem processTicker_keys (wtt : List (WeekLabel × List WeekEntry))
    (stats : WeekLabel → Ticker → Option Rat) (t : Ticker) (pr : Option Rat) :
    (processTicker wtt stats t pr).map Prod.fst = wtt.map Prod.fst := by
  cases pr with
  | none => rfl
  | some c =>
    cases ha : assignTicker orderedWeekKeys (fun wk => stats wk t) c with
    | none => simp only [processTicker, ha]
    | some p =>
      obtain ⟨wk, m⟩ := p
      simp only [processTicker, ha]
      exact appendToWeek_keys wtt wk ⟨t, c, m⟩

theorem run_assignment_keys (tickers : List Ticker) (price : Ticker → Option Rat)
    (stats : WeekLabel → Ticker → Option Rat) :
    (run_assignment tickers price stats).map Prod.fst = orderedWeekKeys := by
  unfold run_assignment
  have hstep : ∀ (ts : List Ticker) (acc : List (WeekLabel × List WeekEntry)),
      ((ts.foldl (fun wtt t => processTicker wtt stats t (price t)) acc).map Prod.fst) =
        acc.map Prod.fst := by
    intro ts
    induction ts with
    | nil => intro acc; rfl
    | cons t ts ih =>
      intro acc
      calc ((t :: ts).foldl (fun wtt t => processTicker wtt stats t (price t)) acc).map Prod.fst
          = ((ts.foldl (fun wtt t => processTicker wtt stats t (price t))
              (processTicker acc stats t (price t))).map Prod.fst) := rfl
      _ = (processTicker acc stats t (price t)).map Prod.fst := ih _
      _ = acc.map Prod.fst := processTicker_keys acc stats t (price t)
  rw [hstep]
  rfl

theorem run_assignment_mem (tickers : List Ticker) (price : Ticker → Option Rat)
    (stats : WeekLabel → Ticker → Option Rat) :
    ∀ (wk : WeekLabel) (l : List WeekEntry) (e : WeekEntry),
      (wk, l) ∈ run_assignment tickers price stats → e ∈ l →
      assignFull price stats e.ticker = some (wk, e) := by
  unfold run_assignment
  have hstep : ∀ (ts : List Ticker) (acc : List (WeekLabel × List WeekEntry)),
      (∀ wk l e, (wk, l) ∈ acc → e ∈ l → assignFull price stats e.ticker = some (wk, e)) →
      ∀ wk l e,
        (wk, l) ∈ ts.foldl (fun wtt t => processTicker wtt stats t (price t)) acc →
        e ∈ l → assignFull price stats e.ticker = some (wk, e) := by
    intro ts
    induction ts with
    | nil => intro acc hacc wk l e hm he; exact hacc wk l e hm he
    | cons t ts ih =>
      intro acc hacc wk l e hm he
      refine ih (processTicker acc stats t (price t)) ?_ wk l e hm he
      intro wk' l' e' hm' he'
      cases hp : price t with
      | none =>
        simp only [processTicker, hp] at hm'
        exact hacc _ _ _ hm' he'
      | some c =>
        cases ha : assignTicker orderedWeekKeys (fun wk => stats wk t) c with
        | none =>
          simp only [processTicker, hp, ha] at hm'
          exact hacc _ _ _ hm' he'
        | some p =>
          obtain ⟨pw, pm⟩ := p
          simp only [processTicker, hp, ha, appendToWeek] at hm'
          obtain ⟨q, hq, hqe⟩ := List.mem_map.mp hm'
          by_cases hqk : q.1 = pw
          · rw [if_pos hqk] at hqe
            have hw : q.1 = wk' := congrArg Prod.fst hqe
            have hl : q.2 ++ [⟨t, c, pm⟩] = l' := congrArg Prod.snd hqe
            rw [← hl] at he'
            rcases List.mem_append.mp he' with h | h
            · exact hw ▸ hacc q.1 q.2 e' hq h
            · have he'' : e' = ⟨t, c, pm⟩ := by simpa using h
              subst he''
              show assignFull price stats t = some (wk', ⟨t, c, pm⟩)
              simp only [assignFull, hp, ha, Option.map_some']
              rw [← hqk, hw]
          · rw [if_neg hqk] at hqe
            exact hacc wk' l' e' (hqe ▸ hq) he'
  intro wk l e hm he
  refine hstep tickers (orderedWeekKeys.map fun wk => (wk, [])) ?_ wk l e hm he
  intro wk' l' e' hm' he'
  obtain ⟨q, hq, hqe⟩ := List.mem_map.mp hm'
  have hl : ([] : List WeekEntry) = l' := congrArg Prod.snd hqe
  rw [← hl] at he'
  exact absurd he' (List.not_mem_nil e')

theorem lookupWeek_eq_of_nodup :
    ∀ (weeks : List (WeekLabel × List WeekEntry)) (wk : WeekLabel) (l : List WeekEntry),
      (weeks.map Prod.fst).Nodup → (wk, l) ∈ weeks → lookupWeek weeks wk = l := by
  intro weeks
  induction weeks with
  | nil => intro wk l _ hm; cases hm
  | cons p ps ih =>
    intro wk l hnd hm
    rw [List.map_cons] at hnd
    have hnd' := List.nodup_cons.mp hnd
    rcases List.mem_cons.mp hm with h | h
    · unfold lookupWeek
      rw [List.find?_cons_of_pos _ (by simp [← h])]
      exact (congrArg Prod.snd h.symm)
    · have hwk : wk ∈ ps.map Prod.fst := by
        have := List.mem_map_of_mem Prod.fst h
        simpa using this
      have hne : ¬ p.1 = wk := fun hq => hnd'.1 (hq ▸ hwk)
      unfold lookupWeek
      rw [List.find?_cons_of_neg _ (by simp [hne])]
      exact ih wk l hnd'.2 h

theorem filterWeekEntries_eq_filter (prev : List (Ticker × WeekLabel)) (wk : WeekLabel) :
    ∀ es : List WeekEntry,
      filterWeekEntries prev wk es =
        es.filter (fun e => !decide ((e.ticker, wk) ∈ prev)) := by
  intro es
  induction es with
  | nil => rfl
  | cons e rest ih =>
    by_cases h : (e.ticker, wk) ∈ prev <;>
      simp [filterWeekEntries, h, ih, List.filter_cons]

theorem mem_filterWeekEntries (prev : List (Ticker × WeekLabel)) (wk : WeekLabel)
    (es : List WeekEntry) (e : WeekEntry) :
    e ∈ filterWeekEntries prev wk es ↔ e ∈ es ∧ (e.ticker, wk) ∉ prev := by
  rw [filterWeekEntries_eq_filter]
  simp [List.mem_filter]

theorem filterWeekEntries_eq_nil (prev : List (Ticker × WeekLabel)) (wk : WeekLabel)
    (es : List WeekEntry) (h : ∀ e ∈ es, (e.ticker, wk) ∈ prev) :
    filterWeekEntries prev wk es = [] := by
  rw [filterWeekEntries_eq_filter]
  apply List.filter_eq_nil_iff.mpr
  intro e he
  simp [h e he]

theorem aggregate_eq_nil (wtt : List (WeekLabel × List WeekEntry))
    (h : ∀ p ∈ wtt, p.2 = []) : aggregate_week_matches wtt = [] := by
  unfold aggregate_week_matches
  induction wtt with
  | nil => rfl
  | cons p ps ih =>
    rw [List.flatMap_cons, h p (List.mem_cons_self p ps), ih fun q hq =>
      h q (List.mem_cons.mpr (Or.inr hq))]
    rfl

theorem loadPrev_append (s1 s2 : List ExecRecord) (today : Nat) :
    load_previously_reported_pairs (s1 ++ s2) today =
      load_previously_reported_pairs s1 today ++
        load_previously_reported_pairs s2 today := by
  unfold load_previously_reported_pairs
  rw [List.filter_append, List.flatMap_append]

theorem loadPrev_untagged (raw : List (WeekLabel × List WeekEntry)) (today : Nat) :
    load_previously_reported_pairs [⟨today, raw, false⟩] today = [] := by
  unfold load_previously_reported_pairs
  have hfil : List.filter (fun r => decide (r.day = today) && r.isNotified)
      [(⟨today, raw, false⟩ : ExecRecord)] = [] := by simp
  rw [hfil]
  rfl

theorem mem_loadPrev_notified (raw : List (WeekLabel × List WeekEntry)) (today : Nat)
    (hkeys : raw.map Prod.fst = orderedWeekKeys)
    (wk : WeekLabel) (l : List WeekEntry) (e : WeekEntry)
    (hm : (wk, l) ∈ raw) (he : e ∈ l) :
    (e.ticker, wk) ∈ load_previously_reported_pairs [⟨today, raw, true⟩] today := by
  unfold load_previously_reported_pairs
  have hfil : List.filter (fun r => decide (r.day = today) && r.isNotified)
      [(⟨today, raw, true⟩ : ExecRecord)] = [⟨today, raw, true⟩] := by simp
  rw [hfil]
  rw [List.flatMap_cons]
  apply List.mem_append.mpr
  left
  apply List.mem_flatMap.mpr
  refine ⟨wk, ?_, ?_⟩
  · apply orderedWeekKeys_sub_weekFields
    rw [← hkeys]
    exact List.mem_map_of_mem Prod.fst hm
  · have hlk : lookupWeek raw wk = l :=
      lookupWeek_eq_of_nodup raw wk l (hkeys ▸ orderedWeekKeys_nodup) hm
    show (e.ticker, wk) ∈ (lookupWeek (⟨today, raw, true⟩ : ExecRecord).weeks wk).map
      (fun e => (e.ticker, wk))
    rw [show (⟨today, raw, true⟩ : ExecRecord).weeks = raw from rfl, hlk]
    exact List.mem_map_of_mem (fun e => (e.ticker, wk)) he

/-- C2: the weekly resolver scans `ordered_week_keys` from deepest
lookback (14 weeks) to shallowest (this week); a ticker with a known
current price is assigned to the first window in that order whose minimum
is defined and exceeds the current price, and the scan stops there;
windows with undefined stats are skipped without aborting; if no window
qualifies the ticker produces no signal; and a ticker's entries appear in
at most one window's output list per run. -/
theorem weekly_resolver_deepest_first :
    orderedWeekKeys =
      [WeekLabel.sincePastWeeks 14, WeekLabel.sincePastWeeks 13,
       WeekLabel.sincePastWeeks 12, WeekLabel.sincePastWeeks 11,
       WeekLabel.sincePastWeeks 10, WeekLabel.sincePastWeeks 9,
       WeekLabel.sincePastWeeks 8, WeekLabel.sincePastWeeks 7,
       WeekLabel.sincePastWeeks 6, WeekLabel.sincePastWeeks 5,
       WeekLabel.sincePastWeeks 4, WeekLabel.sincePastWeeks 3,
       WeekLabel.sincePastWeeks 2, WeekLabel.sincePastWeeks 1,
       WeekLabel.sinceThisWeek] ∧
    (∀ (stats : WeekLabel → Option Rat) (c : Rat) (wk : WeekLabel) (m : Rat),
        assignTicker orderedWeekKeys stats c = some (wk, m) →
        stats wk = some m ∧ c < m ∧
        ∃ l1 l2, orderedWeekKeys = l1 ++ wk :: l2 ∧
          ∀ wk' ∈ l1, ∀ m', stats wk' = some m' → m' ≤ c) ∧
    (∀ (stats : WeekLabel → Option Rat) (c : Rat),
        assignTicker orderedWeekKeys stats c = none ↔
          ∀ wk ∈ orderedWeekKeys, ∀ m, stats wk = some m → m ≤ c) ∧
    (∀ (tickers : List Ticker) (price : Ticker → Option Rat)
       (stats : WeekLabel → Ticker → Option Rat) (t : Ticker)
       (wk1 wk2 : WeekLabel) (l1 l2 : List WeekEntry) (e1 e2 : WeekEntry),
        (wk1, l1) ∈ run_assignment tickers price stats →
        (wk2, l2) ∈ run_assignment tickers price stats →
        e1 ∈ l1 → e2 ∈ l2 → e1.ticker = t → e2.ticker = t → wk1 = wk2) := by
  refine ⟨orderedWeekKeys_eq, ?_, ?_, ?_⟩
  · intro stats c wk m h
    exact assignTicker_some_spec orderedWeekKeys stats c wk m h
  · intro stats c
    exact assignTicker_none_iff orderedWeekKeys stats c
  · intro tickers price stats t wk1 wk2 l1 l2 e1 e2 h1 h2 he1 he2 ht1 ht2
    have a1 := run_assignment_mem tickers price stats wk1 l1 e1 h1 he1
    have a2 := run_assignment_mem tickers price stats wk2 l2 e2 h2 he2
    rw [ht1] at a1
    rw [ht2] at a2
    rw [a1] at a2
    injection a2 with h
    exact congrArg Prod.fst h

/-- Witness for C2: the scan applied to a statistics map that is
undefined on the deepest window and 20 everywhere else, with current
price 10: the ticker lands in the second-deepest window (13 weeks), the
deepest being skipped. -/
theorem weekly_resolver_deepest_first_witness :
    (fun wk => if wk = WeekLabel.sincePastWeeks 14 then none else some (20 : Rat))
        (WeekLabel.sincePastWeeks 13) = some 20 ∧
    (10 : Rat) < 20 ∧
    ∃ l1 l2, orderedWeekKeys = l1 ++ WeekLabel.sincePastWeeks 13 :: l2 ∧
      ∀ wk' ∈ l1, ∀ m',
        (fun wk => if wk = WeekLabel.sincePastWeeks 14 then none
         else some (20 : Rat)) wk' = some m' → m' ≤ 10 :=
  weekly_resolver_deepest_first.2.1
    (fun wk => if wk = WeekLabel.sincePastWeeks 14 then none else some (20 : Rat)) 10
    (WeekLabel.sincePastWeeks 13) 20 (by decide)

/-- C6: the dedup filter is exact and shape-preserving: the window keys
of the result are those of the candidates, in order, and for each window
an entry survives iff it was a candidate of that window and its
(ticker, window_label) pair is not in the previously-reported set — for
every previously-reported set and every candidate mapping (hence for all
permutations of candidate sets). -/
theorem dedup_filter_exact :
    ∀ (prev : List (Ticker × WeekLabel)) (wtt : List (WeekLabel × List WeekEntry)),
      (filter_already_reported_week_signals prev wtt).map Prod.fst = wtt.map Prod.fst ∧
      List.Forall₂ (fun p q : WeekLabel × List WeekEntry => p.1 = q.1 ∧
          ∀ e : WeekEntry, e ∈ q.2 ↔ (e ∈ p.2 ∧ (e.ticker, p.1) ∉ prev))
        wtt (filter_already_reported_week_signals prev wtt) := by
  intro prev wtt
  constructor
  · unfold filter_already_reported_week_signals
    induction wtt with
    | nil => rfl
    | cons p ps ih => simp only [List.map_cons, ih]
  · induction wtt with
    | nil => exact List.Forall₂.nil
    | cons p ps ih =>
      refine List.Forall₂.cons ⟨rfl, ?_⟩ ih
      intro e
      exact mem_filterWeekEntries prev p.1 p.2 e

/-- Witness for C6: the theorem applied to one previously-reported pair
and a two-entry candidate window. -/
theorem dedup_filter_exact_witness :
    (filter_already_reported_week_signals [("A", WeekLabel.sinceThisWeek)]
        [(WeekLabel.sinceThisWeek,
          [(⟨"A", 1, 2⟩ : WeekEntry), (⟨"B", 3, 4⟩ : WeekEntry)])]).map Prod.fst =
      ([(WeekLabel.sinceThisWeek,
          [(⟨"A", 1, 2⟩ : WeekEntry), (⟨"B", 3, 4⟩ : WeekEntry)])]).map Prod.fst :=
  (dedup_filter_exact [("A", WeekLabel.sinceThisWeek)]
    [(WeekLabel.sinceThisWeek, [(⟨"A", 1, 2⟩ : WeekEntry), (⟨"B", 3, 4⟩ : WeekEntry)])]).1

/-- C4 (amended): the run's persistence behaviour: with zero candidate
rows after dedup filtering, the raw computation is persisted untagged and
the run is not notified; when rows exist but dispatch fails, NOTHING is
persisted (the source only calls `save_week_execution` in the zero-rows
and successful-dispatch paths) and the run is not notified; the record is
tagged notified exactly when dispatch succeeded with at least one row;
and an un-notified run never extends the previously-reported set, so its
pairs remain eligible the same day. -/
theorem persistence_contract :
    ∀ (store : List ExecRecord) (today : Nat) (tickers : List Ticker)
      (price : Ticker → Option Rat) (stats : WeekLabel → Ticker → Option Rat)
      (send : Bool),
      ((run_base_analysis store today tickers price stats send).rows = [] →
        (run_base_analysis store today tickers price stats send).saved =
          [⟨today, run_assignment tickers price stats, false⟩] ∧
        (run_base_analysis store today tickers price stats send).notified = false) ∧
      ((run_base_analysis store today tickers price stats send).rows ≠ [] →
        send = false →
        (run_base_analysis store today tickers price stats send).saved = [] ∧
        (run_base_analysis store today tickers price stats send).notified = false) ∧
      ((run_base_analysis store today tickers price stats send).notified = true ↔
        send = true ∧ (run_base_analysis store today tickers price stats send).rows ≠ []) ∧
      ((run_base_analysis store today tickers price stats send).notified = false →
        load_previously_reported_pairs
            (store ++ (run_base_analysis store today tickers price stats send).saved)
            today =
          load_previously_reported_pairs store today) := by
  intro store today tickers price stats send
  have hrun : run_base_analysis store today tickers price stats send =
      if aggregate_week_matches (filter_already_reported_week_signals
          (load_previously_reported_pairs store today)
          (run_assignment tickers price stats)) = []
      then ⟨[⟨today, run_assignment tickers price stats, false⟩], false,
            aggregate_week_matches (filter_already_reported_week_signals
              (load_previously_reported_pairs store today)
              (run_assignment tickers price stats))⟩
      else if send
      then ⟨[⟨today, run_assignment tickers price stats, true⟩], true,
            aggregate_week_matches (filter_already_reported_week_signals
              (load_previously_reported_pairs store today)
              (run_assignment tickers price stats))⟩
      else ⟨[], false,
            aggregate_week_matches (filter_already_reported_week_signals
              (load_previously_reported_pairs store today)
              (run_assignment tickers price stats))⟩ := rfl
  by_cases hr : aggregate_week_matches (filter_already_reported_week_signals
      (load_previously_reported_pairs store today)
      (run_assignment tickers price stats)) = []
  · rw [hrun, if_pos hr]
    refine ⟨fun _ => ⟨rfl, rfl⟩, fun hne => absurd hr hne, by simp [hr], ?_⟩
    intro _
    show load_previously_reported_pairs
        (store ++ [⟨today, run_assignment tickers price stats, false⟩]) today =
      load_previously_reported_pairs store today
    rw [loadPrev_append, loadPrev_untagged, List.append_nil]
  · rw [hrun, if_neg hr]
    cases send with
    | true =>
      refine ⟨fun h => absurd h hr, ?_, by simp [hr], ?_⟩
      · intro _ hf
        exact absurd hf (by simp)
      · intro hf
        exact absurd hf (by simp)
    | false =>
      refine ⟨fun h => absurd h hr, fun _ _ => ⟨rfl, rfl⟩, by simp [hr], ?_⟩
      intro _
      show load_previously_reported_pairs (store ++ []) today =
        load_previously_reported_pairs store today
      rw [List.append_nil]

/-- Counterexample for C4: a run with one qualifying candidate row whose
dispatch fails persists NO execution record at all — `saved` is empty —
contradicting "on every run the execution record is persisted". -/
theorem failed_dispatch_not_persisted_cex :
    (run_base_analysis [] 0 ["A"] (fun _ => some 10) (fun _ _ => some 20) false).saved =
      [] ∧
    (run_base_analysis [] 0 ["A"] (fun _ => some 10) (fun _ _ => some 20) false).rows =
      [⟨"A", WeekLabel.sincePastWeeks 14, 10, 20⟩] ∧
    (run_base_analysis [] 0 ["A"] (fun _ => some 10)
        (fun _ _ => some 20) false).notified = false := by
  refine ⟨by decide, by decide, by decide⟩

/-- Witness for C4: a run with no tickers (zero candidate rows) persists
the raw computation untagged and is not notified. -/
theorem persistence_contract_witness :
    (run_base_analysis [] 3 [] (fun _ => none) (fun _ _ => none) true).saved =
        [⟨3, run_assignment [] (fun _ => none) (fun _ _ => none), false⟩] ∧
    (run_base_analysis [] 3 [] (fun _ => none) (fun _ _ => none) true).notified = false :=
  (persistence_contract [] 3 [] (fun _ => none) (fun _ _ => none) true).1 (by decide)

/-- C5: same-day idempotence: if a run completes with a successful
notification, a second run the same local day with unchanged market data
(same per-window minimums, same current prices) yields zero candidate
rows — every qualifying (ticker, window_label) pair is filtered as
already reported — and is not notified; and the reported set resets at
the day boundary: records from other local days contribute nothing. -/
theorem same_day_idempotence :
    (∀ (store : List ExecRecord) (today : Nat) (tickers : List Ticker)
       (price : Ticker → Option Rat) (stats : WeekLabel → Ticker → Option Rat)
       (send2 : Bool),
        (run_base_analysis store today tickers price stats true).notified = true →
        (run_base_analysis
            (store ++ (run_base_analysis store today tickers price stats true).saved)
            today tickers price stats send2).rows = [] ∧
        (run_base_analysis
            (store ++ (run_base_analysis store today tickers price stats true).saved)
            today tickers price stats send2).notified = false) ∧
    (∀ (store : List ExecRecord) (today : Nat),
        (∀ r ∈ store, r.day ≠ today) →
        load_previously_reported_pairs store today = []) := by
  constructor
  · intro store today tickers price stats send2 hnot
    have hrun1 : run_base_analysis store today tickers price stats true =
        if aggregate_week_matches (filter_already_reported_week_signals
            (load_previously_reported_pairs store today)
            (run_assignment tickers price stats)) = []
        then ⟨[⟨today, run_assignment tickers price stats, false⟩], false,
              aggregate_week_matches (filter_already_reported_week_signals
                (load_previously_reported_pairs store today)
                (run_assignment tickers price stats))⟩
        else ⟨[⟨today, run_assignment tickers price stats, true⟩], true,
              aggregate_week_matches (filter_already_reported_week_signals
                (load_previously_reported_pairs store today)
                (run_assignment tickers price stats))⟩ := rfl
    by_cases hr1 : aggregate_week_matches (filter_already_reported_week_signals
        (load_previously_reported_pairs store today)
        (run_assignment tickers price stats)) = []
    · rw [hrun1, if_pos hr1] at hnot
      simp at hnot
    · have hsaved : (run_base_analysis store today tickers price stats true).saved =
          [⟨today, run_assignment tickers price stats, true⟩] := by
        rw [hrun1, if_neg hr1]
      rw [hsaved]
      have hkeys : (run_assignment tickers price stats).map Prod.fst = orderedWeekKeys :=
        run_assignment_keys tickers price stats
      have hall : ∀ p ∈ filter_already_reported_week_signals
          (load_previously_reported_pairs
            (store ++ [⟨today, run_assignment tickers price stats, true⟩]) today)
          (run_assignment tickers price stats), p.2 = [] := by
        intro p hp
        unfold filter_already_reported_week_signals at hp
        obtain ⟨q, hq, hqe⟩ := List.mem_map.mp hp
        rw [← hqe]
        show filterWeekEntries _ q.1 q.2 = []
        apply filterWeekEntries_eq_nil
        intro e he
        rw [loadPrev_append]
        apply List.mem_append.mpr
        right
        exact mem_loadPrev_notified (run_assignment tickers price stats) today hkeys
          q.1 q.2 e (by simpa using hq) he
      have hrows2 : aggregate_week_matches (filter_already_reported_week_signals
          (load_previously_reported_pairs
            (store ++ [⟨today, run_assignment tickers price stats, true⟩]) today)
          (run_assignment tickers price stats)) = [] :=
        aggregate_eq_nil _ hall
      have hrun2 : run_base_analysis
          (store ++ [⟨today, run_assignment tickers price stats, true⟩])
          today tickers price stats send2 =
          ⟨[⟨today, run_assignment tickers price stats, false⟩], false,
            aggregate_week_matches (filter_already_reported_week_signals
              (load_previously_reported_pairs
                (store ++ [⟨today, run_assignment tickers price stats, true⟩]) today)
              (run_assignment tickers price stats))⟩ := by
        have hdef : run_base_analysis
            (store ++ [⟨today, run_assignment tickers price stats, true⟩])
            today tickers price stats send2 =
            if aggregate_week_matches (filter_already_reported_week_signals
                (load_previously_reported_pairs
                  (store ++ [⟨today, run_assignment tickers price stats, true⟩]) today)
                (run_assignment tickers price stats)) = []
            then ⟨[⟨today, run_assignment tickers price stats, false⟩], false,
                  aggregate_week_matches (filter_already_reported_week_signals
                    (load_previously_reported_pairs
                      (store ++ [⟨today, run_assignment tickers price stats, true⟩]) today)
                    (run_assignment tickers price stats))⟩
            else if send2
            then ⟨[⟨today, run_assignment tickers price stats, true⟩], true,
                  aggregate_week_matches (filter_already_reported_week_signals
                    (load_previously_reported_pairs
                      (store ++ [⟨today, run_assignment tickers price stats, true⟩]) today)
                    (run_assignment tickers price stats))⟩
            else ⟨[], false,
                  aggregate_week_matches (filter_already_reported_week_signals
                    (load_previously_reported_pairs
                      (store ++ [⟨today, run_assignment tickers price stats, true⟩]) today)
                    (run_assignment tickers price stats))⟩ := rfl
        rw [hdef, if_pos hrows2]
      rw [hrun2]
      exact ⟨hrows2, rfl⟩
  · intro store today h
    unfold load_previously_reported_pairs
    have hfil : store.filter (fun r => decide (r.day = today) && r.isNotified) = [] := by
      apply List.filter_eq_nil_iff.mpr
      intro r hr
      simp [h r hr]
    rw [hfil]
    rfl

/-- Witness for C5: after a successfully notified run over one ticker
whose price 10 is below every window minimum 20, a second run the same
day produces zero rows and is not notified. -/
theorem same_day_idempotence_witness :
    (run_base_analysis
        ([] ++ (run_base_analysis [] 0 ["A"] (fun _ => some 10)
            (fun _ _ => some 20) true).saved)
        0 ["A"] (fun _ => some 10) (fun _ _ => some 20) false).rows = [] ∧
    (run_base_analysis
        ([] ++ (run_base_analysis [] 0 ["A"] (fun _ => some 10)
            (fun _ _ => some 20) true).saved)
        0 ["A"] (fun _ => some 10) (fun _ _ => some 20) false).notified = false :=
  same_day_idempotence.1 [] 0 ["A"] (fun _ => some 10) (fun _ _ => some 20) false
    (by decide)
